import Mathlib

/-!
Verification of the FPA-MED RAG backend core (src/backend/rag_engine.py and
src/backend/main.py) against its natural-language specification.

Python strings are modelled as `List Char`; Python floats as `ℚ`; Python
dicts as insertion-ordered association lists; the external embedding,
completion and vector-store collaborators as opaque parameters.
-/

/-- Python strings, modelled as lists of characters. -/
abbrev PyStr := List Char

/-! ## Distance-to-similarity conversion (rag_engine.py lines 259-262) -/

/-- `similarity = 1.0 / (1.0 + distance)`, the conversion applied to every
ChromaDB distance in `search_cases`. -/
def similarity (distance : ℚ) : ℚ := 1 / (1 + distance)

/-! ## Citation snippets (rag_engine.py line 145)

`snippet = node.text[:200] + "..." if len(node.text) > 200 else node.text` -/

/-- The truncation marker appended by `RAGEngine.query` when a fragment text
is cut. -/
def truncation_marker : PyStr := "...".toList

/-- The snippet built for each retrieved fragment in `RAGEngine.query`. -/
def build_snippet (text : PyStr) : PyStr :=
  if text.length > 200 then text.take 200 ++ truncation_marker else text

/-! ## Manifest keys (rag_engine.py line 355: `doc_key = f"{case_id}_{file_name}"`) -/

/-- The separator placed between case id and file name in a manifest key. -/
def key_sep : Char := '_'

/-- `doc_key = f"{case_id}_{file_name}"`. -/
def doc_key (case_id file_name : PyStr) : PyStr := case_id ++ key_sep :: file_name

/-! ## Ingestion manifest (rag_engine.py lines 332-389)

The manifest is a JSON object (a Python dict, insertion-ordered) mapping
`doc_key` strings to records. We model it as an association list whose
insert-or-overwrite operation mirrors `manifest[doc_key] = {...}`. -/

/-- The record stored under each manifest key
(`{'case_id': ..., 'file_name': ..., 'ingested_at': ...}`). -/
structure ManifestEntry where
  case_id : PyStr
  file_name : PyStr
  ingested_at : PyStr
deriving DecidableEq

/-- The in-memory manifest dict, insertion-ordered. -/
abbrev Manifest := List (PyStr × ManifestEntry)

/-- `doc_key in manifest`. -/
def Manifest.hasKey (m : Manifest) (k : PyStr) : Bool :=
  m.any (fun p => p.1 == k)

/-- `manifest[k] = e`: overwrite in place if the key exists, else append
(Python dict insertion order). -/
def Manifest.record (m : Manifest) (k : PyStr) (e : ManifestEntry) : Manifest :=
  if m.hasKey k then m.map (fun p => if p.1 == k then (k, e) else p)
  else m ++ [(k, e)]

/-- The manifest file on disk, as `ingest_documents` finds it: absent,
present but unparsable JSON, or present and valid. -/
inductive ManifestFile
  | absent
  | malformed
  | valid (m : Manifest)

/-- Lines 334-340: start from `{}`; load the file if it exists; on a parse
error print a warning and keep `{}`. -/
def load_manifest : ManifestFile → Manifest
  | .absent => []
  | .malformed => []
  | .valid m => m

/-! ## Ingestion pipeline (rag_engine.py lines 314-389) -/

/-- One document produced by `SimpleDirectoryReader(...).load_data()`
(a file may yield several documents, e.g. one per PDF page, all sharing
the same `file_name` metadata). -/
structure Doc where
  file_name : PyStr
  text : PyStr
deriving DecidableEq

/-- Running state of the ingestion loop: the manifest dict, the documents
inserted into the vector store so far (in order), and the two counters. -/
structure IngestState where
  manifest : Manifest
  inserted : List Doc
  ingested : Nat
  skipped : Nat
deriving DecidableEq

/-- The body of the `for doc in documents` loop (lines 352-379);
`case_dir` is the directory path recorded as `ingested_at`. -/
def ingest_step (case_dir case_id : PyStr) (force_reingest : Bool)
    (st : IngestState) (doc : Doc) : IngestState :=
  let k := doc_key case_id doc.file_name
  if st.manifest.hasKey k && !force_reingest then
    { st with skipped := st.skipped + 1 }
  else
    { manifest := st.manifest.record k ⟨case_id, doc.file_name, case_dir⟩,
      inserted := st.inserted ++ [doc],
      ingested := st.ingested + 1,
      skipped := st.skipped }

/-- The whole loop, starting from a loaded manifest and zero counters. -/
def ingest_loop (manifest0 : Manifest) (docs : List Doc)
    (case_dir case_id : PyStr) (force_reingest : Bool) : IngestState :=
  docs.foldl (ingest_step case_dir case_id force_reingest) ⟨manifest0, [], 0, 0⟩

/-- `RAGEngine.ingest_documents`: load the manifest from disk, run the
loop over the loaded documents, save the manifest, return the counts. The
final manifest is part of the result so that a second run can be chained. -/
def ingest_documents (mf : ManifestFile) (docs : List Doc)
    (case_dir case_id : PyStr) (force_reingest : Bool) : IngestState :=
  ingest_loop (load_manifest mf) docs case_dir case_id force_reingest

/-! ## Case search and aggregation (rag_engine.py lines 224-312)

The embedding provider is opaque, so a candidate pool is modelled as the
parallel arrays ChromaDB returns, bundled per hit: the hit's `case_id`
metadata, its document text, and its distance to the query embedding. -/

/-- One chunk-level hit from `chroma_collection.query` (one index `i` of
the parallel `metadatas[0]`, `documents[0]`, `distances[0]` arrays). -/
structure Hit where
  case_id : Option PyStr
  document : PyStr
  distance : ℚ
deriving DecidableEq

/-- `case_id = metadata.get('case_id'); if not case_id: continue` —
a missing key or an empty string are both falsy and are skipped. -/
def hit_cid (h : Hit) : Option PyStr :=
  match h.case_id with
  | none => none
  | some c => if c = [] then none else some c

/-- One entry of the paired dicts `case_scores` / `case_texts` (they are
always updated together, so we fuse them into one insertion-ordered dict;
`score` is the running best similarity, `text` the retained chunk text). -/
structure AggEntry where
  cid : PyStr
  score : ℚ
  text : PyStr
deriving DecidableEq

/-- Lines 264-267: `if case_id not in case_scores or similarity >
case_scores[case_id]:` overwrite both dicts, else keep them. -/
def add_hit (acc : List AggEntry) (cid : PyStr) (s : ℚ) (t : PyStr) :
    List AggEntry :=
  match acc.find? (fun e => e.cid == cid) with
  | none => acc ++ [⟨cid, s, t⟩]
  | some e => if e.score < s
      then acc.map (fun e' => if e'.cid == cid then ⟨cid, s, t⟩ else e')
      else acc

/-- One iteration of the deduplication loop (lines 253-267): skip hits
with a falsy `case_id`, else fold the hit into the dicts. -/
def dedupe_step (acc : List AggEntry) (h : Hit) : List AggEntry :=
  match hit_cid h with
  | none => acc
  | some cid => add_hit acc cid (similarity h.distance) h.document

/-- The deduplication loop of `search_cases` (lines 249-267). -/
def dedupe (pool : List Hit) : List AggEntry :=
  pool.foldl dedupe_step []

/-- The hits of the pool that the loop attributes to a given case. -/
def case_hits (pool : List Hit) (cid : PyStr) : List Hit :=
  pool.filter (fun h => hit_cid h == some cid)

/-- What the loop guarantees for one retained dict entry: its score bounds
the similarity of every one of its case's hits, and its text is the
document of the first hit attaining that score (first-seen tie winner). -/
def entry_spec (pool : List Hit) (e : AggEntry) : Prop :=
  (∀ h ∈ case_hits pool e.cid, similarity h.distance ≤ e.score) ∧
  ((case_hits pool e.cid).find?
      (fun h => decide (similarity h.distance = e.score))).map Hit.document =
    some e.text

/-- Invariant of the deduplication loop: distinct case ids, each entry
satisfies `entry_spec`, and every case seen so far has an entry. -/
def agg_ok (pool : List Hit) (acc : List AggEntry) : Prop :=
  (acc.map AggEntry.cid).Nodup ∧
  (∀ e ∈ acc, entry_spec pool e) ∧
  (∀ h ∈ pool, ∀ cid, hit_cid h = some cid → ∃ e ∈ acc, e.cid = cid)

/-! ### Python's stable sort

`sorted(case_scores.items(), key=lambda x: x[1], reverse=True)` is a
stable sort on the score, descending: an element moves before another only
when its key is strictly greater. We model it by stable insertion sort. -/

/-- Insert `a` before the first element whose key is strictly smaller
(so `a` lands after every earlier element of equal key: stability). -/
def insert_desc (key : α → ℚ) (a : α) : List α → List α
  | [] => [a]
  | b :: t => if key b < key a then a :: b :: t else b :: insert_desc key a t

/-- Stable descending sort by `key`, as Python's `sorted(..., reverse=True)`. -/
def sort_desc (key : α → ℚ) (l : List α) : List α :=
  l.foldl (fun acc a => insert_desc key a acc) []

/-! ### Joining case metadata (lines 269-312) -/

/-- Python's `round` at one decimal place rounds half to even:
`round(x, 1)`. -/
def round_half_even (x : ℚ) : ℤ :=
  let f := ⌊x⌋
  let r := x - f
  if r < 1/2 then f
  else if 1/2 < r then f + 1
  else if f % 2 = 0 then f else f + 1

/-- `round(score * 100, 1)` (line 305). -/
def py_round1 (x : ℚ) : ℚ := (round_half_even (10 * x) : ℚ) / 10

/-- The fields of a case's `metadata.json`, when the file exists and
parses: `title`, `summary`, `key_findings`, `documents`. Each of the first
three may be absent from the JSON object. -/
structure CaseMeta where
  title : Option PyStr
  summary : Option PyStr
  key_findings : List PyStr
  documents_len : Nat
deriving DecidableEq

/-- The `CaseSearchResult` Pydantic model (models.py). -/
structure CaseSearchResult where
  case_id : PyStr
  title : PyStr
  relevance_score : ℚ
  summary : PyStr
  key_findings : List PyStr
  document_count : Nat
deriving DecidableEq

/-- Lines 274-310 for one retained case: join with `metadata.json` when it
exists and parses (`meta`), else fall back to defaults; `fs_count cid` is
the filesystem fallback `max(0, len(list(case_dir.glob('*.*'))) - 1)`
(0 when the case directory does not exist). -/
def join_case (meta : PyStr → Option CaseMeta) (fs_count : PyStr → Nat)
    (e : AggEntry) : CaseSearchResult :=
  let title0 := e.cid
  let summary0 := e.text.take 300
  match meta e.cid with
  | none =>
      { case_id := e.cid, title := title0,
        relevance_score := py_round1 (e.score * 100),
        summary := summary0, key_findings := [],
        document_count := fs_count e.cid }
  | some m =>
      let dc := m.documents_len
      { case_id := e.cid, title := m.title.getD title0,
        relevance_score := py_round1 (e.score * 100),
        summary := m.summary.getD summary0,
        key_findings := m.key_findings.take 5,
        document_count := if dc = 0 then fs_count e.cid else dc }

/-- `search_cases` from the candidate pool onward: deduplicate, sort by
score descending (stable), take `top_k`, join metadata. -/
def rank_cases (meta : PyStr → Option CaseMeta) (fs_count : PyStr → Nat)
    (pool : List Hit) (top_k : Nat) : List CaseSearchResult :=
  ((sort_desc AggEntry.score (dedupe pool)).take top_k).map
    (join_case meta fs_count)

/-- The vector-store query of line 243: the `min(50, count)` nearest
stored chunks, ascending by distance. We model the store as the list of
its chunks (each carrying its distance to the query embedding) and the
nearest-neighbour search as a stable ascending sort followed by `take`. -/
def store_query (store : List Hit) (n : Nat) : List Hit :=
  (sort_desc (fun h => -h.distance) store).take n

/-- `RAGEngine.search_cases` end to end (after the opaque embedding call):
retrieve the pool, then rank. -/
def search_cases (meta : PyStr → Option CaseMeta) (fs_count : PyStr → Nat)
    (store : List Hit) (top_k : Nat) : List CaseSearchResult :=
  rank_cases meta fs_count (store_query store (min 50 store.length)) top_k

/-- `RAGEngine.get_document_count` (lines 214-222): 0 when the engine is
not ready or the collection handle is missing, else the collection count. -/
def get_document_count (ready : Bool) (collection : Option (List Hit)) : Nat :=
  match ready, collection with
  | true, some store => store.length
  | _, _ => 0

/-! ## Clearing a case (rag_engine.py lines 431-465) -/

/-- The engine's storage state seen by `clear_case_documents`: the vector
store collection and the manifest file. -/
structure EngineStorage where
  store : List Hit
  manifest_file : ManifestFile

/-- Is a manifest file present on disk (line 444: `manifest_path.exists()`)? -/
def ManifestFile.present : ManifestFile → Bool
  | .absent => false
  | _ => true

/-- Lines 448-451: `keys_to_remove = [k for k in manifest.keys() if
k.startswith(f"{case_id}_")]`, then delete each. -/
def remove_case_keys (m : Manifest) (case_id : PyStr) : Manifest × Nat :=
  let hits := m.filter (fun p => (case_id ++ [key_sep]).isPrefixOf p.1)
  (m.filter (fun p => !((case_id ++ [key_sep]).isPrefixOf p.1)), hits.length)

/-- `RAGEngine.clear_case_documents`: rewrite the manifest file only and
return the number of removed entries; 0 when no manifest file is found.
The vector store is not touched. -/
def clear_case_documents (st : EngineStorage) (case_id : PyStr) :
    EngineStorage × Nat :=
  match st.manifest_file with
  | .absent => (st, 0)
  | .malformed => (st, 0)
  | .valid m =>
      let (kept, n) := remove_case_keys m case_id
      ({ st with manifest_file := .valid kept }, n)

/-! ## HTTP handlers (main.py lines 73-126)

The engine call is an opaque parameter: a handler that rejects a request
without consulting it provably makes no external call. -/

/-- A FastAPI handler outcome: a response body or an `HTTPException`. -/
inductive HandlerResult (α : Type)
  | ok (value : α)
  | http_error (status : Nat) (detail : PyStr)
deriving DecidableEq

/-- Python whitespace for `str.strip()`. -/
def py_space (c : Char) : Bool := c.isWhitespace

/-- Python `s.strip()`: drop leading and trailing whitespace. -/
def py_strip (s : PyStr) : PyStr :=
  ((s.dropWhile py_space).reverse.dropWhile py_space).reverse

/-- `not s or not s.strip()` — the emptiness test both handlers apply. -/
def py_blank (s : PyStr) : Bool := s == [] || py_strip s == []

/-- `POST /query` (main.py lines 73-94). `engine_query` is
`rag_engine.query`, opaque; an exception from it becomes a 500. -/
def query_documents_route (engine_ready : Bool)
    (engine_query : PyStr → Option PyStr → Except PyStr α)
    (query : PyStr) (case_id : Option PyStr) : HandlerResult α :=
  if !engine_ready then .http_error 503 "RAG engine not initialized".toList
  else if py_blank query then .http_error 400 "Query cannot be empty".toList
  else match engine_query query case_id with
    | .ok r => .ok r
    | .error e => .http_error 500 ("Query failed: ".toList ++ e)

/-- `POST /search-cases` (main.py lines 110-126). `engine_search` is
`rag_engine.search_cases`, opaque. -/
def search_cases_route (engine_ready : Bool)
    (engine_search : PyStr → Except PyStr (List CaseSearchResult))
    (description : PyStr) : HandlerResult (List CaseSearchResult) :=
  if !engine_ready then .http_error 503 "RAG engine not initialized".toList
  else if py_blank description then
    .http_error 400 "Description cannot be empty".toList
  else match engine_search description with
    | .ok r => .ok r
    | .error e => .http_error 500 ("Case search failed: ".toList ++ e)

/-! ## Helper lemmas: the stable descending sort -/

/-- A list sorted by `key`, descending. -/
def DescSorted (key : α → ℚ) (l : List α) : Prop :=
  l.Pairwise (fun x y => key y ≤ key x)

theorem insert_desc_perm (key : α → ℚ) (a : α) (l : List α) :
    (insert_desc key a l).Perm (a :: l) := by
  induction l with
  | nil => rfl
  | cons b t ih =>
    rw [insert_desc]
    split
    · rfl
    · exact (ih.cons b).trans (List.Perm.swap a b t)

theorem sort_desc_aux_perm (key : α → ℚ) (l acc : List α) :
    (l.foldl (fun acc a => insert_desc key a acc) acc).Perm (l ++ acc) := by
  induction l generalizing acc with
  | nil => simp
  | cons b t ih =>
    refine ((ih _).trans ?_)
    refine (List.Perm.append_left t (insert_desc_perm key b acc)).trans ?_
    exact List.perm_middle

theorem sort_desc_perm (key : α → ℚ) (l : List α) : (sort_desc key l).Perm l := by
  simpa using sort_desc_aux_perm key l []

theorem insert_desc_sorted (key : α → ℚ) (a : α) {l : List α}
    (h : DescSorted key l) : DescSorted key (insert_desc key a l) := by
  induction l with
  | nil => simp [insert_desc, DescSorted]
  | cons b t ih =>
    rcases List.pairwise_cons.mp h with ⟨hb, ht⟩
    rw [insert_desc]
    split
    · refine List.pairwise_cons.mpr ⟨?_, h⟩
      intro x hx
      rcases List.mem_cons.mp hx with rfl | hx
      · linarith
      · have := hb x hx; linarith
    · rename_i hnlt
      refine List.pairwise_cons.mpr ⟨?_, ih ht⟩
      intro x hx
      have hx' : x ∈ a :: t := (insert_desc_perm key a t).mem_iff.mp hx
      rcases List.mem_cons.mp hx' with rfl | hx'
      · exact not_lt.mp hnlt
      · exact hb x hx'

theorem sort_desc_aux_sorted (key : α → ℚ) (l acc : List α)
    (hacc : DescSorted key acc) :
    DescSorted key (l.foldl (fun acc a => insert_desc key a acc) acc) := by
  induction l generalizing acc with
  | nil => exact hacc
  | cons b t ih => exact ih _ (insert_desc_sorted key b hacc)

theorem sort_desc_sorted (key : α → ℚ) (l : List α) :
    DescSorted key (sort_desc key l) :=
  sort_desc_aux_sorted key l [] (List.Pairwise.nil)

theorem insert_desc_filter_ne (key : α → ℚ) (a : α) (v : ℚ)
    (hv : key a ≠ v) (l : List α) :
    (insert_desc key a l).filter (fun x => decide (key x = v)) =
      l.filter (fun x => decide (key x = v)) := by
  induction l with
  | nil => simp [insert_desc, hv]
  | cons b t ih =>
    rw [insert_desc]
    split
    · simp [List.filter_cons, hv]
    · simp only [List.filter_cons, ih]

theorem insert_desc_filter_eq (key : α → ℚ) (a : α) {l : List α}
    (h : DescSorted key l) :
    (insert_desc key a l).filter (fun x => decide (key x = key a)) =
      l.filter (fun x => decide (key x = key a)) ++ [a] := by
  induction l with
  | nil => simp [insert_desc]
  | cons b t ih =>
    rcases List.pairwise_cons.mp h with ⟨hb, ht⟩
    rw [insert_desc]
    split
    · rename_i hlt
      have hnone : ∀ x ∈ b :: t, ¬ (key x = key a) := by
        intro x hx
        rcases List.mem_cons.mp hx with rfl | hx
        · exact fun e => absurd e (by linarith)
        · have := hb x hx; exact fun e => absurd e (by linarith)
      have h1 : (b :: t).filter (fun x => decide (key x = key a)) = [] := by
        rw [List.filter_eq_nil_iff]
        intro x hx
        simpa using hnone x hx
      rw [List.filter_cons]
      simp only [h1]
      simp
    · rw [List.filter_cons, List.filter_cons, ih ht]
      by_cases hbv : key b = key a
      · simp [hbv]
      · simp [hbv]

theorem sort_desc_aux_filter (key : α → ℚ) (v : ℚ) (l acc : List α)
    (hacc : DescSorted key acc) :
    (l.foldl (fun acc a => insert_desc key a acc) acc).filter
        (fun x => decide (key x = v)) =
      acc.filter (fun x => decide (key x = v)) ++
        l.filter (fun x => decide (key x = v)) := by
  induction l generalizing acc with
  | nil => simp
  | cons b t ih =>
    rw [List.foldl_cons, ih _ (insert_desc_sorted key b hacc), List.filter_cons]
    by_cases hbv : key b = v
    · subst hbv
      rw [insert_desc_filter_eq key b hacc]
      simp
    · rw [insert_desc_filter_ne key b v hbv]
      simp [hbv]

theorem sort_desc_filter (key : α → ℚ) (v : ℚ) (l : List α) :
    (sort_desc key l).filter (fun x => decide (key x = v)) =
      l.filter (fun x => decide (key x = v)) := by
  simpa using sort_desc_aux_filter key v l [] List.Pairwise.nil

/-! ## Helper lemmas: Python rounding -/

theorem le_round_half_even (x : ℚ) : ⌊x⌋ ≤ round_half_even x := by
  unfold round_half_even
  dsimp only
  split_ifs <;> omega

theorem round_half_even_le (x : ℚ) : round_half_even x ≤ ⌊x⌋ + 1 := by
  unfold round_half_even
  dsimp only
  split_ifs <;> omega

theorem round_half_even_mono {x y : ℚ} (h : x ≤ y) :
    round_half_even x ≤ round_half_even y := by
  by_cases hf : ⌊x⌋ = ⌊y⌋
  · have hr : x - (⌊x⌋ : ℚ) ≤ y - (⌊y⌋ : ℚ) := by
      rw [hf]; linarith
    unfold round_half_even
    dsimp only
    rw [hf] at hr ⊢
    split_ifs <;> first | omega | linarith
  · have hlt : ⌊x⌋ < ⌊y⌋ :=
      lt_of_le_of_ne (Int.floor_le_floor h) hf
    calc round_half_even x ≤ ⌊x⌋ + 1 := round_half_even_le x
      _ ≤ ⌊y⌋ := by omega
      _ ≤ round_half_even y := le_round_half_even y

theorem py_round1_mono {x y : ℚ} (h : x ≤ y) : py_round1 x ≤ py_round1 y := by
  unfold py_round1
  have : round_half_even (10 * x) ≤ round_half_even (10 * y) :=
    round_half_even_mono (by linarith)
  have hc : ((round_half_even (10 * x) : ℚ)) ≤ (round_half_even (10 * y) : ℚ) := by
    exact_mod_cast this
  linarith

/-! ## Helper lemmas: joined results -/

theorem join_case_cid (meta : PyStr → Option CaseMeta) (fs_count : PyStr → Nat)
    (e : AggEntry) : (join_case meta fs_count e).case_id = e.cid := by
  unfold join_case
  cases meta e.cid <;> rfl

theorem join_case_score (meta : PyStr → Option CaseMeta) (fs_count : PyStr → Nat)
    (e : AggEntry) :
    (join_case meta fs_count e).relevance_score = py_round1 (e.score * 100) := by
  unfold join_case
  cases meta e.cid <;> rfl

/-! ## Helper lemmas: the ingestion loop -/

theorem record_hasKey_iff (m : Manifest) (k k' : PyStr) (e : ManifestEntry) :
    (m.record k e).hasKey k' = true ↔ (m.hasKey k' = true ∨ k = k') := by
  unfold Manifest.record
  split
  · rename_i hk
    rw [Manifest.hasKey, List.any_map]
    constructor
    · intro h
      rcases List.any_eq_true.mp h with ⟨p, hp, hpk⟩
      simp only [Function.comp] at hpk
      by_cases hpk1 : p.1 == k
      · rw [if_pos hpk1] at hpk
        right
        exact eq_of_beq (by simpa using hpk)
      · rw [if_neg hpk1] at hpk
        left
        exact List.any_eq_true.mpr ⟨p, hp, hpk⟩
    · intro h
      rcases h with h | rfl
      · rcases List.any_eq_true.mp h with ⟨p, hp, hpk⟩
        refine List.any_eq_true.mpr ⟨p, hp, ?_⟩
        simp only [Function.comp]
        by_cases hpk1 : p.1 == k
        · rw [if_pos hpk1]
          have := eq_of_beq hpk1
          have := eq_of_beq hpk
          simp_all
        · rw [if_neg hpk1]
          exact hpk
      · rcases List.any_eq_true.mp hk with ⟨p, hp, hpk⟩
        refine List.any_eq_true.mpr ⟨p, hp, ?_⟩
        simp only [Function.comp, if_pos hpk]
        simp
  · rw [Manifest.hasKey, List.any_append]
    rename_i hk
    constructor
    · intro h
      rcases Bool.or_eq_true_iff.mp h with h | h
      · exact Or.inl h
      · right
        have : (k, e).1 == k' := by simpa using h
        exact eq_of_beq this
    · intro h
      rcases h with h | rfl
      · exact Bool.or_eq_true_iff.mpr (Or.inl h)
      · refine Bool.or_eq_true_iff.mpr (Or.inr ?_)
        simp

theorem ingest_step_hasKey_mono (dir cid : PyStr) (force : Bool)
    (st : IngestState) (d : Doc) (k : PyStr)
    (h : st.manifest.hasKey k = true) :
    (ingest_step dir cid force st d).manifest.hasKey k = true := by
  unfold ingest_step
  dsimp only
  split
  · exact h
  · exact (record_hasKey_iff ..).mpr (Or.inl h)

theorem ingest_foldl_hasKey_mono (dir cid : PyStr) (force : Bool)
    (docs : List Doc) (st : IngestState) (k : PyStr)
    (h : st.manifest.hasKey k = true) :
    ((docs.foldl (ingest_step dir cid force) st).manifest.hasKey k) = true := by
  induction docs generalizing st with
  | nil => exact h
  | cons d t ih => exact ih _ (ingest_step_hasKey_mono dir cid force st d k h)

theorem ingest_foldl_keys (dir cid : PyStr) (force : Bool)
    (docs : List Doc) (st : IngestState) :
    ∀ d ∈ docs,
      ((docs.foldl (ingest_step dir cid force) st).manifest.hasKey
        (doc_key cid d.file_name)) = true := by
  induction docs generalizing st with
  | nil => intro d hd; cases hd
  | cons d t ih =>
    intro d' hd'
    rcases List.mem_cons.mp hd' with rfl | hd'
    · rw [List.foldl_cons]
      refine ingest_foldl_hasKey_mono dir cid force t _ _ ?_
      unfold ingest_step
      dsimp only
      split
      · rename_i hcond
        simp only [Bool.and_eq_true] at hcond
        exact hcond.1
      · exact (record_hasKey_iff ..).mpr (Or.inr rfl)
    · exact ih _ d' hd'

theorem ingest_foldl_skip_all (dir cid : PyStr) (docs : List Doc)
    (st : IngestState)
    (h : ∀ d ∈ docs, st.manifest.hasKey (doc_key cid d.file_name) = true) :
    docs.foldl (ingest_step dir cid false) st =
      { st with skipped := st.skipped + docs.length } := by
  induction docs generalizing st with
  | nil => simp
  | cons d t ih =>
    rw [List.foldl_cons]
    have hstep : ingest_step dir cid false st d =
        { st with skipped := st.skipped + 1 } := by
      unfold ingest_step
      dsimp only
      rw [if_pos]
      rw [h d (List.mem_cons_self d t), Bool.not_false, Bool.and_true]
    rw [hstep,
      ih { st with skipped := st.skipped + 1 }
        (fun d' hd' => h d' (List.mem_cons_of_mem d hd'))]
    simp [Nat.add_assoc, Nat.add_comm 1]

theorem doc_key_file_inj (cid f f' : PyStr)
    (h : doc_key cid f = doc_key cid f') : f = f' := by
  unfold doc_key at h
  have := List.append_cancel_left h
  exact List.tail_eq_of_cons_eq this

theorem ingest_foldl_fresh (dir cid : PyStr) (docs : List Doc)
    (st : IngestState)
    (hnodup : (docs.map Doc.file_name).Nodup)
    (hfresh : ∀ d ∈ docs, st.manifest.hasKey (doc_key cid d.file_name) = false) :
    (docs.foldl (ingest_step dir cid false) st).ingested =
        st.ingested + docs.length ∧
      (docs.foldl (ingest_step dir cid false) st).skipped = st.skipped ∧
      (docs.foldl (ingest_step dir cid false) st).inserted =
        st.inserted ++ docs := by
  induction docs generalizing st with
  | nil => simp
  | cons d t ih =>
    rw [List.foldl_cons]
    have hd0 : st.manifest.hasKey (doc_key cid d.file_name) = false :=
      hfresh d (List.mem_cons_self d t)
    have hstep : ingest_step dir cid false st d =
        { manifest := st.manifest.record (doc_key cid d.file_name)
            ⟨cid, d.file_name, dir⟩,
          inserted := st.inserted ++ [d],
          ingested := st.ingested + 1,
          skipped := st.skipped } := by
      unfold ingest_step
      dsimp only
      rw [hd0]
      simp
    rw [hstep]
    have hnodup' : (t.map Doc.file_name).Nodup :=
      (List.nodup_cons.mp hnodup).2
    have hhead : d.file_name ∉ t.map Doc.file_name :=
      (List.nodup_cons.mp hnodup).1
    have hfresh' : ∀ d' ∈ t,
        (st.manifest.record (doc_key cid d.file_name)
            ⟨cid, d.file_name, dir⟩).hasKey (doc_key cid d'.file_name) = false := by
      intro d' hd'
      rw [Bool.eq_false_iff]
      intro hcontra
      rcases (record_hasKey_iff ..).mp hcontra with hcontra | hcontra
      · rw [hfresh d' (List.mem_cons_of_mem d hd')] at hcontra
        cases hcontra
      · have : d'.file_name = d.file_name :=
          doc_key_file_inj cid _ _ hcontra.symm
        exact hhead (this ▸ List.mem_map_of_mem Doc.file_name hd')
    have harg := ih (IngestState.mk
        (st.manifest.record (doc_key cid d.file_name) ⟨cid, d.file_name, dir⟩)
        (st.inserted ++ [d]) (st.ingested + 1) st.skipped) hnodup' hfresh'
    rcases harg with ⟨h1, h2, h3⟩
    refine ⟨?_, ?_, ?_⟩
    · rw [h1]
      show st.ingested + 1 + t.length = st.ingested + (d :: t).length
      rw [List.length_cons]
      omega
    · rw [h2]
    · rw [h3]
      show st.inserted ++ [d] ++ t = st.inserted ++ d :: t
      rw [List.append_assoc]
      rfl

theorem ingest_step_count (dir cid : PyStr) (force : Bool)
    (st : IngestState) (d : Doc) :
    (ingest_step dir cid force st d).ingested +
        (ingest_step dir cid force st d).skipped =
      st.ingested + st.skipped + 1 := by
  unfold ingest_step
  dsimp only
  split
  · show st.ingested + (st.skipped + 1) = st.ingested + st.skipped + 1
    omega
  · show st.ingested + 1 + st.skipped = st.ingested + st.skipped + 1
    omega

theorem ingest_foldl_count (dir cid : PyStr) (force : Bool)
    (docs : List Doc) (st : IngestState) :
    (docs.foldl (ingest_step dir cid force) st).ingested +
        (docs.foldl (ingest_step dir cid force) st).skipped =
      st.ingested + st.skipped + docs.length := by
  induction docs generalizing st with
  | nil => simp
  | cons d t ih =>
    rw [List.foldl_cons]
    rw [ih (ingest_step dir cid force st d), ingest_step_count,
      List.length_cons]
    omega

/-! ## Theorems -/

/-- C1 (amended): after a completed ingestion run over a case directory
(manifest saved), a second `ingest_documents` call over the same documents
with `force_reingest = false` inserts nothing into the vector store,
returns `ingested = 0`, and returns `skipped` equal to the total number of
fragments loaded from the directory — which is the sum of the first run's
`ingested` and `skipped` counts, not necessarily its `ingested` count
alone. -/
theorem c1_second_run_skips_all (mf : ManifestFile) (docs : List Doc)
    (case_dir case_id : PyStr) (force1 : Bool) :
    (ingest_documents
        (.valid (ingest_documents mf docs case_dir case_id force1).manifest)
        docs case_dir case_id false).inserted = [] ∧
    (ingest_documents
        (.valid (ingest_documents mf docs case_dir case_id force1).manifest)
        docs case_dir case_id false).ingested = 0 ∧
    (ingest_documents
        (.valid (ingest_documents mf docs case_dir case_id force1).manifest)
        docs case_dir case_id false).skipped = docs.length ∧
    (ingest_documents mf docs case_dir case_id force1).ingested +
        (ingest_documents mf docs case_dir case_id force1).skipped =
      docs.length := by
  have hkeys : ∀ d ∈ docs,
      ((ingest_documents mf docs case_dir case_id force1).manifest.hasKey
        (doc_key case_id d.file_name)) = true :=
    ingest_foldl_keys case_dir case_id force1 docs _
  have hskip := ingest_foldl_skip_all case_dir case_id docs
    (IngestState.mk
      (ingest_documents mf docs case_dir case_id force1).manifest [] 0 0)
    hkeys
  have hcount := ingest_foldl_count case_dir case_id force1 docs
    (IngestState.mk (load_manifest mf) [] 0 0)
  have hdoc2 : ingest_documents
      (.valid (ingest_documents mf docs case_dir case_id force1).manifest)
      docs case_dir case_id false =
      docs.foldl (ingest_step case_dir case_id false)
        (IngestState.mk
          (ingest_documents mf docs case_dir case_id force1).manifest
          [] 0 0) := rfl
  refine ⟨?_, ?_, ?_, by simpa using hcount⟩
  · rw [hdoc2, hskip]
  · rw [hdoc2, hskip]
  · rw [hdoc2, hskip]
    show 0 + docs.length = docs.length
    omega

/-- C1 counterexample: a file that loads as two fragments sharing one
`file_name` (as a multi-page PDF does). The first run over an absent
manifest ingests only the first fragment (the second already hits the
freshly recorded key), yet the second run skips both: `skipped` on the
second run is 2, not the first run's `ingested = 1`. -/
theorem c1_counterexample :
    (ingest_documents .absent
        [⟨"f.pdf".toList, "page one".toList⟩,
         ⟨"f.pdf".toList, "page two".toList⟩]
        "data/case_001".toList "case_001".toList false).ingested = 1 ∧
    (ingest_documents
        (.valid (ingest_documents .absent
          [⟨"f.pdf".toList, "page one".toList⟩,
           ⟨"f.pdf".toList, "page two".toList⟩]
          "data/case_001".toList "case_001".toList false).manifest)
        [⟨"f.pdf".toList, "page one".toList⟩,
         ⟨"f.pdf".toList, "page two".toList⟩]
        "data/case_001".toList "case_001".toList false).skipped = 2 ∧
    (2 : Nat) ≠ 1 := by
  refine ⟨by decide, by decide, by decide⟩

/-- C8 (amended): an absent or unparsable manifest file does not abort
ingestion: the loaded ledger is empty, and every fragment whose
`(case, file)` key has not yet been seen in the run is ingested; when the
directory's fragments carry pairwise-distinct file names this means
`ingested = total fragment count` and `skipped = 0`. -/
theorem c8_manifest_fallback (mf : ManifestFile) (docs : List Doc)
    (case_dir case_id : PyStr)
    (hmf : mf = .absent ∨ mf = .malformed)
    (hnodup : (docs.map Doc.file_name).Nodup) :
    load_manifest mf = [] ∧
    (ingest_documents mf docs case_dir case_id false).ingested =
      docs.length ∧
    (ingest_documents mf docs case_dir case_id false).skipped = 0 ∧
    (ingest_documents mf docs case_dir case_id false).inserted = docs := by
  have hload : load_manifest mf = [] := by
    rcases hmf with rfl | rfl <;> rfl
  have hfresh := ingest_foldl_fresh case_dir case_id docs
    (IngestState.mk [] [] 0 0) hnodup (fun d _ => rfl)
  have hdoc : ingest_documents mf docs case_dir case_id false =
      docs.foldl (ingest_step case_dir case_id false)
        (IngestState.mk [] [] 0 0) := by
    rw [ingest_documents, ingest_loop, hload]
  refine ⟨hload, ?_, ?_, ?_⟩
  · rw [hdoc, hfresh.1]
    show 0 + docs.length = docs.length
    omega
  · rw [hdoc, hfresh.2.1]
  · rw [hdoc, hfresh.2.2]
    rfl

/-- Witness for C8 at a malformed manifest file and two distinct files. -/
theorem c8_manifest_fallback_witness :
    load_manifest .malformed = [] ∧
    (ingest_documents .malformed
        [⟨"a.txt".toList, "alpha".toList⟩, ⟨"b.txt".toList, "beta".toList⟩]
        "data/case_003".toList "case_003".toList false).ingested =
      ([⟨"a.txt".toList, "alpha".toList⟩,
        ⟨"b.txt".toList, "beta".toList⟩] : List Doc).length ∧
    (ingest_documents .malformed
        [⟨"a.txt".toList, "alpha".toList⟩, ⟨"b.txt".toList, "beta".toList⟩]
        "data/case_003".toList "case_003".toList false).skipped = 0 ∧
    (ingest_documents .malformed
        [⟨"a.txt".toList, "alpha".toList⟩, ⟨"b.txt".toList, "beta".toList⟩]
        "data/case_003".toList "case_003".toList false).inserted =
      [⟨"a.txt".toList, "alpha".toList⟩, ⟨"b.txt".toList, "beta".toList⟩] :=
  c8_manifest_fallback .malformed
    [⟨"a.txt".toList, "alpha".toList⟩, ⟨"b.txt".toList, "beta".toList⟩]
    "data/case_003".toList "case_003".toList (Or.inr rfl) (by decide)

/-- C8 counterexample: with a malformed manifest file and two fragments
sharing one file name, the run ingests only the first (`ingested = 1`,
`skipped = 1`), not `ingested = 2, skipped = 0` as the claim states. -/
theorem c8_counterexample :
    (ingest_documents .malformed
        [⟨"g.pdf".toList, "p1".toList⟩, ⟨"g.pdf".toList, "p2".toList⟩]
        "data/case_002".toList "case_002".toList false).ingested = 1 ∧
    (ingest_documents .malformed
        [⟨"g.pdf".toList, "p1".toList⟩, ⟨"g.pdf".toList, "p2".toList⟩]
        "data/case_002".toList "case_002".toList false).skipped = 1 ∧
    ([⟨"g.pdf".toList, "p1".toList⟩,
      ⟨"g.pdf".toList, "p2".toList⟩] : List Doc).length = 2 := by
  refine ⟨by decide, by decide, by decide⟩

/-- C4: the distance-to-similarity conversion is `1 / (1 + d)`; it is
strictly decreasing on nonnegative distances, maps distance `0` to exactly
`1`, and sends every nonnegative distance into the half-open interval
`(0, 1]`. -/
theorem c4_similarity_conversion (d1 d2 d : ℚ)
    (h1 : 0 ≤ d1) (h12 : d1 < d2) (hd : 0 ≤ d) :
    similarity d1 = 1 / (1 + d1) ∧
    similarity d2 < similarity d1 ∧
    similarity 0 = 1 ∧
    0 < similarity d ∧ similarity d ≤ 1 := by
  have hp1 : (0:ℚ) < 1 + d1 := by linarith
  have hp2 : (0:ℚ) < 1 + d := by linarith
  refine ⟨rfl, ?_, ?_, ?_, ?_⟩
  · exact one_div_lt_one_div_of_lt hp1 (by linarith)
  · norm_num [similarity]
  · exact one_div_pos.mpr hp2
  · rw [similarity, div_le_one hp2]; linarith

/-- Witness for C4 at `d1 = 0`, `d2 = 1`, `d = 3`. -/
theorem c4_similarity_conversion_witness :
    similarity 0 = 1 / (1 + 0) ∧
    similarity 1 < similarity 0 ∧
    similarity 0 = 1 ∧
    0 < similarity 3 ∧ similarity 3 ≤ 1 :=
  c4_similarity_conversion 0 1 3 (by decide) (by decide) (by decide)

/-- C7 (amended): the citation snippet is at most 203 characters: when the
fragment text exceeds 200 characters, the snippet is the first 200
characters followed by the 3-character truncation marker `...` (203
characters total, not at most 200); otherwise it is the fragment text
unchanged. -/
theorem c7_snippet_truncation (text : PyStr) :
    (build_snippet text).length ≤ 203 ∧
    (200 < text.length →
      build_snippet text = text.take 200 ++ truncation_marker) ∧
    (text.length ≤ 200 → build_snippet text = text) := by
  unfold build_snippet
  by_cases h : 200 < text.length
  · rw [if_pos h]
    refine ⟨?_, fun _ => rfl, fun hle => absurd h (not_lt.mpr hle)⟩
    have hm : truncation_marker.length = 3 := rfl
    rw [List.length_append, List.length_take, hm]
    omega
  · rw [if_neg h]
    exact ⟨by omega, fun hgt => absurd hgt h, fun _ => rfl⟩

/-- Witness for C7 at a 201-character text and a 2-character text. -/
theorem c7_snippet_truncation_witness :
    (build_snippet (List.replicate 201 'a')).length ≤ 203 ∧
    build_snippet (List.replicate 201 'a') =
      (List.replicate 201 'a').take 200 ++ truncation_marker ∧
    build_snippet "hi".toList = "hi".toList :=
  ⟨(c7_snippet_truncation _).1,
   (c7_snippet_truncation _).2.1 (by rw [List.length_replicate]; omega),
   (c7_snippet_truncation _).2.2 (by decide)⟩

/-- C7 counterexample: a 201-character fragment text yields a
203-character snippet, so the claimed 200-character bound is false. -/
theorem c7_counterexample :
    (build_snippet (List.replicate 201 'a')).length = 203 ∧
    ¬ ((build_snippet (List.replicate 201 'a')).length ≤ 200) := by
  have hlen : (build_snippet (List.replicate 201 'a')).length = 203 := by
    rw [build_snippet, if_pos (by rw [List.length_replicate]; omega)]
    have hm : truncation_marker.length = 3 := rfl
    rw [List.length_append, List.length_take, hm, List.length_replicate]
    omega
  exact ⟨hlen, by omega⟩

theorem py_strip_of_all_space (s : PyStr)
    (h : ∀ c ∈ s, py_space c = true) : py_strip s = [] := by
  unfold py_strip
  rw [List.dropWhile_eq_nil_iff.mpr h]
  rfl

/-- C5: an empty or whitespace-only query (respectively case description)
is rejected with a 400 validation error before any external call: the
handler's result is the error for every possible engine behaviour, so the
engine — and hence the embedding, completion and vector-store
collaborators — is never consulted. -/
theorem c5_blank_input_rejected {α : Type} (query description : PyStr)
    (hq : ∀ c ∈ query, py_space c = true)
    (hd : ∀ c ∈ description, py_space c = true)
    (engine_query : PyStr → Option PyStr → Except PyStr α)
    (engine_search : PyStr → Except PyStr (List CaseSearchResult))
    (case_id : Option PyStr) :
    query_documents_route true engine_query query case_id =
      .http_error 400 "Query cannot be empty".toList ∧
    search_cases_route true engine_search description =
      .http_error 400 "Description cannot be empty".toList := by
  have hq' : py_blank query = true := by
    unfold py_blank
    rw [py_strip_of_all_space query hq]
    simp
  have hd' : py_blank description = true := by
    unfold py_blank
    rw [py_strip_of_all_space description hd]
    simp
  constructor
  · unfold query_documents_route
    simp [hq']
  · unfold search_cases_route
    simp [hd']

/-- Witness for C5 at a three-space query and a space-tab description. -/
theorem c5_blank_input_rejected_witness :
    query_documents_route true
        (fun (_ : PyStr) (_ : Option PyStr) => (Except.ok 0 : Except PyStr Nat))
        "   ".toList none =
      .http_error 400 "Query cannot be empty".toList ∧
    search_cases_route true (fun _ => .ok []) " \t".toList =
      .http_error 400 "Description cannot be empty".toList :=
  c5_blank_input_rejected "   ".toList " \t".toList
    (by decide) (by decide) _ _ none

/-- C9: on an empty vector store, `search_cases` returns an empty ranked
list (for any description embedding, metadata store and `top_k`) and
`get_document_count` returns 0; both are total functions, so no exception
is raised. -/
theorem c9_empty_store (meta : PyStr → Option CaseMeta)
    (fs_count : PyStr → Nat) (top_k : Nat) (ready : Bool)
    (collection : Option (List Hit)) :
    search_cases meta fs_count [] top_k = [] ∧
    get_document_count ready (some []) = 0 ∧
    get_document_count false collection = 0 ∧
    get_document_count ready none = 0 := by
  refine ⟨?_, ?_, ?_, ?_⟩
  · simp [search_cases, rank_cases, store_query, sort_desc, dedupe]
  · cases ready <;> rfl
  · cases collection <;> rfl
  · cases ready <;> rfl

/-- C10: `clear_case_documents` modifies only the ingestion manifest — it
removes exactly the key-matching entries and returns their count (0 when
the manifest file is absent) — while the vector store is untouched, so
`search_cases` and the underlying top-k retrieval (`store_query`, which
`query` and `search_cases` both read) return the same results before and
after the clear. -/
theorem c10_clear_case_frame (st : EngineStorage) (case_id : PyStr)
    (meta : PyStr → Option CaseMeta) (fs_count : PyStr → Nat)
    (top_k n : Nat) :
    (clear_case_documents st case_id).1.store = st.store ∧
    (∀ m, st.manifest_file = .valid m →
      (clear_case_documents st case_id).1.manifest_file =
        .valid (m.filter
          (fun p => !((case_id ++ [key_sep]).isPrefixOf p.1))) ∧
      (clear_case_documents st case_id).2 =
        (m.filter (fun p => (case_id ++ [key_sep]).isPrefixOf p.1)).length) ∧
    (st.manifest_file = .absent → (clear_case_documents st case_id).2 = 0) ∧
    search_cases meta fs_count (clear_case_documents st case_id).1.store
        top_k =
      search_cases meta fs_count st.store top_k ∧
    store_query (clear_case_documents st case_id).1.store n =
      store_query st.store n := by
  have hstore : (clear_case_documents st case_id).1.store = st.store := by
    unfold clear_case_documents
    cases st.manifest_file <;> rfl
  refine ⟨hstore, ?_, ?_, by rw [hstore], by rw [hstore]⟩
  · intro m hm
    unfold clear_case_documents
    rw [hm]
    exact ⟨rfl, rfl⟩
  · intro hm
    unfold clear_case_documents
    rw [hm]

/-- Witness for C10 at a one-hit store and a one-entry manifest. -/
theorem c10_clear_case_frame_witness :
    (clear_case_documents
        ⟨[⟨some "c".toList, "t".toList, 1⟩],
         .valid [(doc_key "c".toList "a.txt".toList,
           ⟨"c".toList, "a.txt".toList, "d".toList⟩)]⟩
        "c".toList).1.store = [⟨some "c".toList, "t".toList, 1⟩] ∧
    (clear_case_documents
        ⟨[⟨some "c".toList, "t".toList, 1⟩],
         .valid [(doc_key "c".toList "a.txt".toList,
           ⟨"c".toList, "a.txt".toList, "d".toList⟩)]⟩
        "c".toList).1.manifest_file =
      .valid (([(doc_key "c".toList "a.txt".toList,
          ⟨"c".toList, "a.txt".toList, "d".toList⟩)] : Manifest).filter
        (fun p => !(("c".toList ++ [key_sep]).isPrefixOf p.1))) ∧
    (clear_case_documents
        ⟨[⟨some "c".toList, "t".toList, 1⟩],
         .valid [(doc_key "c".toList "a.txt".toList,
           ⟨"c".toList, "a.txt".toList, "d".toList⟩)]⟩
        "c".toList).2 =
      (([(doc_key "c".toList "a.txt".toList,
          ⟨"c".toList, "a.txt".toList, "d".toList⟩)] : Manifest).filter
        (fun p => ("c".toList ++ [key_sep]).isPrefixOf p.1)).length :=
  ⟨(c10_clear_case_frame _ _ (fun _ => none) (fun _ => 0) 5 5).1,
   ((c10_clear_case_frame _ _ (fun _ => none) (fun _ => 0) 5 5).2.1 _ rfl).1,
   ((c10_clear_case_frame _ _ (fun _ => none) (fun _ => 0) 5 5).2.1 _ rfl).2⟩

/-! ## Helper lemmas: the manifest key scheme -/

theorem sep_split_inj (a : List Char) :
    ∀ (b x y : List Char), key_sep ∉ a → key_sep ∉ b →
      a ++ key_sep :: x = b ++ key_sep :: y → a = b ∧ x = y := by
  induction a with
  | nil =>
    intro b x y _ hb h
    cases b with
    | nil => simpa using h
    | cons c b' =>
      simp only [List.nil_append, List.cons_append, List.cons.injEq] at h
      exact absurd (h.1 ▸ List.mem_cons_self c b') hb
  | cons c a' ih =>
    intro b x y ha hb h
    cases b with
    | nil =>
      simp only [List.cons_append, List.nil_append, List.cons.injEq] at h
      exact absurd (h.1 ▸ List.mem_cons_self c a') ha
    | cons d b' =>
      simp only [List.cons_append, List.cons.injEq] at h
      have ha' : key_sep ∉ a' := fun hc => ha (List.mem_cons_of_mem c hc)
      have hb' : key_sep ∉ b' := fun hc => hb (List.mem_cons_of_mem d hc)
      rcases ih b' x y ha' hb' h.2 with ⟨rfl, rfl⟩
      exact ⟨by rw [h.1], rfl⟩

theorem sep_key_isPrefix (a b f : List Char)
    (ha : key_sep ∉ a) (hb : key_sep ∉ b) :
    ((a ++ [key_sep]).isPrefixOf (b ++ key_sep :: f)) = true ↔ a = b := by
  rw [List.isPrefixOf_iff_prefix]
  constructor
  · rintro ⟨t, ht⟩
    rw [List.append_assoc] at ht
    exact (sep_split_inj a b t f ha hb (by simpa using ht)).1
  · rintro rfl
    exact ⟨f, by simp⟩

/-- C6 (amended): the key scheme `key = caseId + '_' + fileName` is
collision-free — and `remove_case_keys` case-exact — only when case
identifiers do not contain the separator: under that proviso two pairs
share a key exactly when case id and file name both agree, and clearing a
case removes precisely the manifest entries recorded for that case. The
proviso is necessary: see the counterexample. -/
theorem c6_key_scheme (c1 c2 f1 f2 cid : PyStr) (m : Manifest)
    (h1 : key_sep ∉ c1) (h2 : key_sep ∉ c2) (hcid : key_sep ∉ cid)
    (hm : ∀ p ∈ m, key_sep ∉ p.2.case_id ∧
      p.1 = doc_key p.2.case_id p.2.file_name) :
    (doc_key c1 f1 = doc_key c2 f2 ↔ c1 = c2 ∧ f1 = f2) ∧
    (remove_case_keys m cid).1 =
      m.filter (fun p => !(p.2.case_id == cid)) ∧
    (remove_case_keys m cid).2 =
      (m.filter (fun p => p.2.case_id == cid)).length := by
  have hpt : ∀ p ∈ m,
      ((cid ++ [key_sep]).isPrefixOf p.1) = (p.2.case_id == cid) := by
    intro p hp
    rcases hm p hp with ⟨hsep, hkey⟩
    rw [hkey]
    rw [Bool.eq_iff_iff]
    rw [doc_key]
    rw [sep_key_isPrefix cid p.2.case_id p.2.file_name hcid hsep]
    rw [beq_iff_eq]
    exact ⟨Eq.symm, Eq.symm⟩
  refine ⟨?_, ?_, ?_⟩
  · constructor
    · intro h
      exact sep_split_inj c1 c2 f1 f2 h1 h2 h
    · rintro ⟨rfl, rfl⟩
      rfl
  · unfold remove_case_keys
    exact List.filter_congr (fun p hp => by rw [hpt p hp])
  · unfold remove_case_keys
    dsimp only
    rw [List.filter_congr (fun p hp => hpt p hp)]

/-- Witness for C6 at separator-free case ids and a two-case manifest. -/
theorem c6_key_scheme_witness :
    (doc_key "ca".toList "f1".toList = doc_key "ca".toList "f1".toList ↔
      "ca".toList = "ca".toList ∧ "f1".toList = "f1".toList) ∧
    (remove_case_keys
        [(doc_key "x".toList "f.txt".toList,
            ⟨"x".toList, "f.txt".toList, "d".toList⟩),
         (doc_key "y".toList "g.txt".toList,
            ⟨"y".toList, "g.txt".toList, "d".toList⟩)]
        "x".toList).1 =
      ([(doc_key "x".toList "f.txt".toList,
            ⟨"x".toList, "f.txt".toList, "d".toList⟩),
        (doc_key "y".toList "g.txt".toList,
            ⟨"y".toList, "g.txt".toList, "d".toList⟩)] : Manifest).filter
        (fun p => !(p.2.case_id == "x".toList)) ∧
    (remove_case_keys
        [(doc_key "x".toList "f.txt".toList,
            ⟨"x".toList, "f.txt".toList, "d".toList⟩),
         (doc_key "y".toList "g.txt".toList,
            ⟨"y".toList, "g.txt".toList, "d".toList⟩)]
        "x".toList).2 =
      (([(doc_key "x".toList "f.txt".toList,
            ⟨"x".toList, "f.txt".toList, "d".toList⟩),
         (doc_key "y".toList "g.txt".toList,
            ⟨"y".toList, "g.txt".toList, "d".toList⟩)] : Manifest).filter
        (fun p => p.2.case_id == "x".toList)).length :=
  c6_key_scheme "ca".toList "ca".toList "f1".toList "f1".toList "x".toList
    [(doc_key "x".toList "f.txt".toList,
        ⟨"x".toList, "f.txt".toList, "d".toList⟩),
     (doc_key "y".toList "g.txt".toList,
        ⟨"y".toList, "g.txt".toList, "d".toList⟩)]
    (by decide) (by decide) (by decide) (by decide)

/-- C6 counterexample: with an underscore inside a case identifier the
key scheme collides across distinct (caseId, fileName) pairs —
`doc_key "a_b" "c" = doc_key "a" "b_c"` — and clearing case `a` removes
the manifest entry recorded for the different case `a_b`. -/
theorem c6_counterexample :
    doc_key "a_b".toList "c".toList = doc_key "a".toList "b_c".toList ∧
    ¬ ("a_b".toList = "a".toList ∧ "c".toList = "b_c".toList) ∧
    remove_case_keys
        [(doc_key "a_b".toList "c".toList,
            ⟨"a_b".toList, "c".toList, "d".toList⟩)]
        "a".toList =
      ([], 1) := by
  refine ⟨by decide, by decide, by decide⟩

/-! ## Helper lemmas: the deduplication loop -/

theorem add_hit_none (acc : List AggEntry) (cid : PyStr) (s : ℚ) (t : PyStr)
    (hfind : acc.find? (fun e => e.cid == cid) = none) :
    add_hit acc cid s t = acc ++ [⟨cid, s, t⟩] := by
  unfold add_hit
  rw [hfind]

theorem add_hit_update (acc : List AggEntry) (cid : PyStr) (s : ℚ) (t : PyStr)
    (e0 : AggEntry) (hfind : acc.find? (fun e => e.cid == cid) = some e0)
    (hlt : e0.score < s) :
    add_hit acc cid s t =
      acc.map (fun e' => if e'.cid == cid then ⟨cid, s, t⟩ else e') := by
  unfold add_hit
  rw [hfind]
  exact if_pos hlt

theorem add_hit_keep (acc : List AggEntry) (cid : PyStr) (s : ℚ) (t : PyStr)
    (e0 : AggEntry) (hfind : acc.find? (fun e => e.cid == cid) = some e0)
    (hnlt : ¬ e0.score < s) :
    add_hit acc cid s t = acc := by
  unfold add_hit
  rw [hfind]
  exact if_neg hnlt

theorem case_hits_append_none (pool : List Hit) (h : Hit)
    (hc : hit_cid h = none) (cid : PyStr) :
    case_hits (pool ++ [h]) cid = case_hits pool cid := by
  unfold case_hits
  rw [List.filter_append]
  have hone : List.filter (fun h' => hit_cid h' == some cid) [h] = [] := by
    simp [List.filter, hc]
  rw [hone, List.append_nil]

theorem case_hits_append_self (pool : List Hit) (h : Hit) (c : PyStr)
    (hc : hit_cid h = some c) :
    case_hits (pool ++ [h]) c = case_hits pool c ++ [h] := by
  unfold case_hits
  rw [List.filter_append]
  congr 1
  simp [List.filter, hc]

theorem case_hits_append_other (pool : List Hit) (h : Hit) (c cid : PyStr)
    (hc : hit_cid h = some c) (hne : cid ≠ c) :
    case_hits (pool ++ [h]) cid = case_hits pool cid := by
  unfold case_hits
  rw [List.filter_append]
  have hone : List.filter (fun h' => hit_cid h' == some cid) [h] = [] := by
    simp only [List.filter, hc]
    have : ((some c == some cid) : Bool) = false := by
      simp
      exact fun hcc => hne hcc.symm
    rw [this]
  rw [hone, List.append_nil]

theorem case_hits_nil_of_no_entry (pool : List Hit) (acc : List AggEntry)
    (c : PyStr)
    (hcomp : ∀ h ∈ pool, ∀ cid, hit_cid h = some cid → ∃ e ∈ acc, e.cid = cid)
    (hnone : ∀ e ∈ acc, ¬(e.cid == c) = true) :
    case_hits pool c = [] := by
  cases hch : case_hits pool c with
  | nil => rfl
  | cons x xs =>
    have hx : x ∈ case_hits pool c := by
      rw [hch]
      exact List.mem_cons_self x xs
    unfold case_hits at hx
    have hxp : x ∈ pool := List.mem_of_mem_filter hx
    have hxf := (List.mem_filter.mp hx).2
    have hxc : hit_cid x = some c := eq_of_beq hxf
    rcases hcomp x hxp c hxc with ⟨e, he, hec⟩
    exact absurd (beq_iff_eq.mpr hec) (hnone e he)

theorem agg_ok_step (pool : List Hit) (acc : List AggEntry) (h : Hit)
    (hok : agg_ok pool acc) : agg_ok (pool ++ [h]) (dedupe_step acc h) := by
  obtain ⟨hnd, hspec, hcomp⟩ := hok
  unfold dedupe_step
  cases hc : hit_cid h with
  | none =>
    refine ⟨hnd, ?_, ?_⟩
    · intro e he
      have hch := case_hits_append_none pool h hc e.cid
      have hold := hspec e he
      unfold entry_spec at hold ⊢
      rw [hch]
      exact hold
    · intro h' hh' cid hcid
      rcases List.mem_append.mp hh' with hh' | hh'
      · exact hcomp h' hh' cid hcid
      · rw [List.mem_singleton.mp hh', hc] at hcid
        cases hcid
  | some c =>
    show agg_ok (pool ++ [h]) (add_hit acc c (similarity h.distance) h.document)
    cases hfind : acc.find? (fun e => e.cid == c) with
    | none =>
      rw [add_hit_none acc c (similarity h.distance) h.document hfind]
      have hnone := List.find?_eq_none.mp hfind
      have hempty : case_hits pool c = [] :=
        case_hits_nil_of_no_entry pool acc c hcomp hnone
      have hchc : case_hits (pool ++ [h]) c = [h] := by
        rw [case_hits_append_self pool h c hc, hempty]
        rfl
      refine ⟨?_, ?_, ?_⟩
      · rw [List.map_append]
        refine List.Nodup.append hnd (by simp) ?_
        intro x hx hx2
        have hxc : x = c := by simpa using hx2
        rcases List.mem_map.mp hx with ⟨e, he, rfl⟩
        exact (hnone e he) (beq_iff_eq.mpr hxc)
      · intro e he
        rcases List.mem_append.mp he with he | he
        · have hene : e.cid ≠ c := fun hec => (hnone e he) (beq_iff_eq.mpr hec)
          have hch := case_hits_append_other pool h c e.cid hc hene
          have hold := hspec e he
          unfold entry_spec at hold ⊢
          rw [hch]
          exact hold
        · rw [List.mem_singleton.mp he]
          unfold entry_spec
          dsimp only
          rw [hchc]
          constructor
          · intro h' hh'
            rw [List.mem_singleton.mp hh']
          · rw [List.find?_cons_of_pos _ (by simp)]
            rfl
      · intro h' hh' cid hcid
        rcases List.mem_append.mp hh' with hh' | hh'
        · rcases hcomp h' hh' cid hcid with ⟨e, he, hec⟩
          exact ⟨e, List.mem_append_left _ he, hec⟩
        · rw [List.mem_singleton.mp hh', hc] at hcid
          refine ⟨⟨c, similarity h.distance, h.document⟩,
            List.mem_append_right _ (List.mem_singleton_self _), ?_⟩
          exact Option.some.inj hcid
    | some e0 =>
      have he0mem : e0 ∈ acc := List.mem_of_find?_eq_some hfind
      have hf0 := List.find?_some hfind
      have he0cid : e0.cid = c := eq_of_beq hf0
      by_cases hlt : e0.score < similarity h.distance
      · rw [add_hit_update acc c (similarity h.distance) h.document e0 hfind hlt]
        have hupdcid : ∀ e' : AggEntry,
            (if e'.cid == c
              then (⟨c, similarity h.distance, h.document⟩ : AggEntry)
              else e').cid = e'.cid := by
          intro e'
          by_cases hb : e'.cid == c
          · rw [if_pos hb]
            exact (eq_of_beq hb).symm
          · rw [if_neg hb]
        have hmapcid :
            ((acc.map fun e' => if e'.cid == c
                then (⟨c, similarity h.distance, h.document⟩ : AggEntry)
                else e').map AggEntry.cid) = acc.map AggEntry.cid := by
          rw [List.map_map]
          exact List.map_congr_left fun e' _ => hupdcid e'
        refine ⟨by rw [hmapcid]; exact hnd, ?_, ?_⟩
        · intro e he
          rcases List.mem_map.mp he with ⟨e', he', rfl⟩
          by_cases hb : e'.cid == c
          · rw [if_pos hb]
            have he'e0 : e' = e0 :=
              List.inj_on_of_nodup_map hnd he' he0mem
                ((eq_of_beq hb).trans he0cid.symm)
            obtain ⟨hb1, hb2⟩ := hspec e0 he0mem
            rw [he0cid] at hb1
            unfold entry_spec
            dsimp only
            rw [case_hits_append_self pool h c hc]
            constructor
            · intro h' hh'
              rcases List.mem_append.mp hh' with hh' | hh'
              · exact le_of_lt (lt_of_le_of_lt (hb1 h' hh') hlt)
              · rw [List.mem_singleton.mp hh']
            · have hfirst : (case_hits pool c).find?
                  (fun h' => decide
                    (similarity h'.distance = similarity h.distance)) = none := by
                rw [List.find?_eq_none]
                intro x hx
                simp only [decide_eq_true_eq]
                intro hxe
                have hxb := hb1 x hx
                rw [hxe] at hxb
                exact absurd hxb (not_le.mpr hlt)
              rw [List.find?_append, hfirst, Option.none_or]
              rw [List.find?_cons_of_pos _ (by simp)]
              rfl
          · rw [if_neg hb]
            have hene : e'.cid ≠ c := fun hec => hb (beq_iff_eq.mpr hec)
            have hch := case_hits_append_other pool h c e'.cid hc hene
            have hold := hspec e' he'
            unfold entry_spec at hold ⊢
            rw [hch]
            exact hold
        · intro h' hh' cid hcid
          rcases List.mem_append.mp hh' with hh' | hh'
          · rcases hcomp h' hh' cid hcid with ⟨e, he, hec⟩
            refine ⟨if e.cid == c
                then (⟨c, similarity h.distance, h.document⟩ : AggEntry)
                else e,
              List.mem_map_of_mem _ he, ?_⟩
            rw [hupdcid e]
            exact hec
          · rw [List.mem_singleton.mp hh', hc] at hcid
            refine ⟨if e0.cid == c
                then (⟨c, similarity h.distance, h.document⟩ : AggEntry)
                else e0,
              List.mem_map_of_mem _ he0mem, ?_⟩
            rw [hupdcid e0, he0cid]
            exact Option.some.inj hcid
      · rw [add_hit_keep acc c (similarity h.distance) h.document e0 hfind hlt]
        refine ⟨hnd, ?_, ?_⟩
        · intro e he
          by_cases hbc : e.cid = c
          · have hee0 : e = e0 :=
              List.inj_on_of_nodup_map hnd he he0mem (hbc.trans he0cid.symm)
            subst hee0
            obtain ⟨hb1, hb2⟩ := hspec e he
            unfold entry_spec at *
            rw [hbc] at hb1 hb2 ⊢
            rw [case_hits_append_self pool h c hc]
            constructor
            · intro h' hh'
              rcases List.mem_append.mp hh' with hh' | hh'
              · exact hb1 h' hh'
              · rw [List.mem_singleton.mp hh']
                exact not_lt.mp hlt
            · rcases Option.map_eq_some'.mp hb2 with ⟨h00, hfind00, hdoc⟩
              rw [List.find?_append, hfind00]
              show some h00.document = some e.text
              rw [hdoc]
          · have hch := case_hits_append_other pool h c e.cid hc hbc
            have hold := hspec e he
            unfold entry_spec at hold ⊢
            rw [hch]
            exact hold
        · intro h' hh' cid hcid
          rcases List.mem_append.mp hh' with hh' | hh'
          · exact hcomp h' hh' cid hcid
          · rw [List.mem_singleton.mp hh', hc] at hcid
            exact ⟨e0, he0mem, he0cid.trans (Option.some.inj hcid)⟩

theorem dedupe_ok (pool : List Hit) : agg_ok pool (dedupe pool) := by
  induction pool using List.reverseRecOn with
  | nil =>
    exact ⟨List.Pairwise.nil, fun e he => absurd he (List.not_mem_nil e),
      fun h hh => absurd hh (List.not_mem_nil h)⟩
  | append_singleton t a ih =>
    have hfold : dedupe (t ++ [a]) = dedupe_step (dedupe t) a := by
      unfold dedupe
      rw [List.foldl_append]
      rfl
    rw [hfold]
    exact agg_ok_step t (dedupe t) a ih

/-- C2: `rank_cases` (the `search_cases` pipeline from the candidate pool
onward) returns at most one result per case identifier; each result's
reported score is the 0-100 presentation `round(s * 100, 1)` of the
maximum similarity `s` among that case's hits in the pool; and the
fragment text retained as the fallback summary source is the document of
the first pool hit attaining that maximum (first-seen wins on exact
ties). -/
theorem c2_rank_cases_dedup (meta : PyStr → Option CaseMeta)
    (fs_count : PyStr → Nat) (pool : List Hit) (top_k : Nat) :
    ((rank_cases meta fs_count pool top_k).map
      CaseSearchResult.case_id).Nodup ∧
    (∀ r ∈ rank_cases meta fs_count pool top_k,
      ∃ e ∈ dedupe pool,
        r.case_id = e.cid ∧
        r.relevance_score = py_round1 (e.score * 100) ∧
        (∀ h ∈ case_hits pool e.cid, similarity h.distance ≤ e.score) ∧
        ((case_hits pool e.cid).find?
            (fun h => decide (similarity h.distance = e.score))).map
          Hit.document = some e.text) := by
  obtain ⟨hnd, hspec, _⟩ := dedupe_ok pool
  constructor
  · have h1 : (rank_cases meta fs_count pool top_k).map
        CaseSearchResult.case_id =
        ((sort_desc AggEntry.score (dedupe pool)).take top_k).map
          AggEntry.cid := by
      unfold rank_cases
      rw [List.map_map]
      exact List.map_congr_left fun e _ => join_case_cid meta fs_count e
    rw [h1, List.map_take]
    have hperm : ((sort_desc AggEntry.score (dedupe pool)).map
        AggEntry.cid).Nodup :=
      ((sort_desc_perm AggEntry.score (dedupe pool)).map
        AggEntry.cid).nodup_iff.mpr hnd
    exact (List.take_sublist top_k _).nodup hperm
  · intro r hr
    unfold rank_cases at hr
    rcases List.mem_map.mp hr with ⟨e, he, rfl⟩
    have hes : e ∈ sort_desc AggEntry.score (dedupe pool) :=
      List.mem_of_mem_take he
    have hedp : e ∈ dedupe pool :=
      (sort_desc_perm AggEntry.score (dedupe pool)).mem_iff.mp hes
    obtain ⟨hb1, hb2⟩ := hspec e hedp
    exact ⟨e, hedp, join_case_cid meta fs_count e,
      join_case_score meta fs_count e, hb1, hb2⟩

/-- Witness for C2 at a two-hit, one-case pool. -/
theorem c2_rank_cases_dedup_witness :
    ((rank_cases (fun _ => none) (fun _ => 0)
        [⟨some ['a'], "t1".toList, 1⟩, ⟨some ['a'], "t2".toList, 0⟩] 5).map
      CaseSearchResult.case_id).Nodup ∧
    (∀ r ∈ rank_cases (fun _ => none) (fun _ => 0)
        [⟨some ['a'], "t1".toList, 1⟩, ⟨some ['a'], "t2".toList, 0⟩] 5,
      ∃ e ∈ dedupe
          [⟨some ['a'], "t1".toList, 1⟩, ⟨some ['a'], "t2".toList, 0⟩],
        r.case_id = e.cid ∧
        r.relevance_score = py_round1 (e.score * 100) ∧
        (∀ h ∈ case_hits
            [⟨some ['a'], "t1".toList, 1⟩, ⟨some ['a'], "t2".toList, 0⟩]
            e.cid, similarity h.distance ≤ e.score) ∧
        ((case_hits
            [⟨some ['a'], "t1".toList, 1⟩, ⟨some ['a'], "t2".toList, 0⟩]
            e.cid).find?
            (fun h => decide (similarity h.distance = e.score))).map
          Hit.document = some e.text) :=
  c2_rank_cases_dedup (fun _ => none) (fun _ => 0)
    [⟨some ['a'], "t1".toList, 1⟩, ⟨some ['a'], "t2".toList, 0⟩] 5

/-- C3 (amended): the list returned by `rank_cases` is sorted by
similarity score weakly descending and contains at most `top_k` entries;
results with equal similarity scores appear in the deduplication pass's
first-seen order (a stable sort on the score only), not in ascending
case-identifier order. -/
theorem c3_rank_cases_sorted (meta : PyStr → Option CaseMeta)
    (fs_count : PyStr → Nat) (pool : List Hit) (top_k : Nat) :
    (rank_cases meta fs_count pool top_k).Pairwise
      (fun r1 r2 => r2.relevance_score ≤ r1.relevance_score) ∧
    (rank_cases meta fs_count pool top_k).length ≤ top_k ∧
    (∀ v : ℚ,
      (((sort_desc AggEntry.score (dedupe pool)).take top_k).filter
          (fun e => decide (AggEntry.score e = v))).Sublist
        ((dedupe pool).filter (fun e => decide (AggEntry.score e = v)))) := by
  refine ⟨?_, ?_, ?_⟩
  · unfold rank_cases
    have hsorted : DescSorted AggEntry.score
        (sort_desc AggEntry.score (dedupe pool)) :=
      sort_desc_sorted AggEntry.score (dedupe pool)
    have htake := List.Pairwise.sublist
      (List.take_sublist top_k (sort_desc AggEntry.score (dedupe pool)))
      hsorted
    refine List.Pairwise.map _ ?_ htake
    intro a b hab
    rw [join_case_score, join_case_score]
    exact py_round1_mono (mul_le_mul_of_nonneg_right hab (by norm_num))
  · unfold rank_cases
    rw [List.length_map, List.length_take]
    exact min_le_left _ _
  · intro v
    have h1 := List.Sublist.filter (fun e => decide (AggEntry.score e = v))
      (List.take_sublist top_k (sort_desc AggEntry.score (dedupe pool)))
    rw [sort_desc_filter AggEntry.score v (dedupe pool)] at h1
    exact h1

/-- C3 counterexample: a pool with one hit for case `b` and one for case
`a` at the same distance. Both results carry the same score, yet `b` is
listed before `a` (first-seen order), so the claimed ascending
case-identifier tie-break is false. -/
theorem c3_counterexample :
    (rank_cases (fun _ => none) (fun _ => 0)
        [⟨some ['b'], "t1".toList, 1⟩, ⟨some ['a'], "t2".toList, 1⟩] 5).map
      (fun r => (r.case_id, r.relevance_score)) =
      [(['b'], 50), (['a'], 50)] ∧
    'a' < 'b' := by
  constructor
  · norm_num [rank_cases, dedupe, dedupe_step, hit_cid, add_hit, sort_desc,
      insert_desc, join_case_cid, join_case_score, List.find?, py_round1,
      similarity, round_half_even,
      (by decide : (('b' : Char) == 'a') = false),
      (by decide : ¬ (('b' : Char) = 'a'))]
  · decide
